import Mathlib

/-!
Verification development for the market-data synchronization layer of the
momentum-report repository (`prices.py`, `chart_module.py`).

Dates are modelled as integers counting days since 1970-01-01 (a Thursday),
so Python's `date.weekday()` (Monday = 0 … Sunday = 6) becomes
`(d + 3) % 7`.  Prices are rationals, the SQLite table `daily_prices` is a
list of rows inserted in order, and HTTP traffic is abstracted by an oracle
`ℤ → PolyResponse` giving the provider's response for each requested date.
-/

namespace Momentum

/-! ## Calendar helpers (`prices.py`) -/

/-- Python `d.weekday()`: Monday = 0 … Sunday = 6; day 0 = 1970-01-01 was a
Thursday (3).  `Int.emod` agrees with Python `%` on a positive modulus. -/
def pyWeekday (d : ℤ) : ℤ := (d + 3) % 7

/-- `_last_trading_thursday`: `today - timedelta(days=(today.weekday() - 3) % 7)`. -/
def last_trading_thursday (d : ℤ) : ℤ := d - (pyWeekday d - 3) % 7

/-- The `while d.weekday() >= 5: d -= 1` loop of `backtrack_grouped_to_available`
and `_store_single_ticker_close`, run with enough fuel (two steps suffice;
seven are always enough). -/
def skipWeekendFuel : ℕ → ℤ → ℤ
  | 0, d => d
  | n + 1, d => if 5 ≤ pyWeekday d then skipWeekendFuel n (d - 1) else d

/-- Step back one day at a time until a weekday is reached. -/
def skipWeekend (d : ℤ) : ℤ := skipWeekendFuel 7 d

/-! ## Provider data model -/

/-- One item of a Polygon `results` list: `{T, o, h, l, c, v, t}` where `t` is
milliseconds since the UTC epoch. -/
structure Bar where
  T : String
  o : ℚ
  h : ℚ
  l : ℚ
  c : ℚ
  v : ℚ
  t : ℤ
deriving DecidableEq, Repr

/-- An HTTP response from the provider: status code, optional `Retry-After`
header, and the parsed `results` list (empty when absent). -/
structure PolyResponse where
  status : ℕ
  retryAfter : Option String
  results : List Bar
deriving DecidableEq, Repr

/-- Python exceptions that the fetch layer can raise.
`nameError` models `NameError: name 'time' is not defined` (in `prices.py`
only `sleep` is imported from `time`, yet the 429 handlers call
`time.sleep(65)`); `valueError` models `int()` on a malformed string;
`httpError` models `raise_for_status`; `runtimeError` models the explicit
`raise RuntimeError` for exhausted lookback. -/
inductive PyErr where
  | nameError : PyErr
  | httpError : ℕ → PyErr
  | valueError : PyErr
  | runtimeError : PyErr
deriving DecidableEq, Repr

/-- UTC calendar day of a millisecond-since-epoch timestamp (floor division,
i.e. the date of `pd.to_datetime(t, unit="ms", utc=True)`). -/
def msEpochToUtcDay (ms : ℤ) : ℤ := ms.fdiv 86400000

/-- The calendar days of the chart path's datetime index:
`pd.to_datetime(df["t"], unit="ms", utc=True).dt.tz_convert(None)` keeps the
UTC clock reading, so each index entry falls on the UTC day of its bar. -/
def chartIndexDays (results : List Bar) : List ℤ :=
  results.map (fun b => msEpochToUtcDay b.t)

/-! ## The store (`daily_prices` table) -/

/-- One row of `daily_prices` with primary key `(ticker, date)`. -/
structure Row where
  ticker : String
  date : ℤ
  open_ : ℚ
  high : ℚ
  low : ℚ
  close : ℚ
  volume : ℚ
deriving DecidableEq, Repr

abbrev Store := List Row

/-- Whether a row with key `(tk, d)` exists (the `SELECT 1 … WHERE ticker=? AND date=?`
probe, and the `PRIMARY KEY` conflict test). -/
def containsKey (s : Store) (tk : String) (d : ℤ) : Bool :=
  s.any (fun r => r.ticker = tk ∧ r.date = d)

/-- `INSERT OR IGNORE` of a single row: a no-op when the key is present. -/
def insertOrIgnore (s : Store) (r : Row) : Store :=
  if containsKey s r.ticker r.date then s else s ++ [r]

/-- `INSERT OR IGNORE INTO daily_prices … SELECT … FROM _tmp_prices`, row by
row in dataframe order. -/
def upsert_many (s : Store) (rows : List Row) : Store :=
  rows.foldl insertOrIgnore s

/-- The first (and, under key uniqueness, only) row with key `(tk, d)`. -/
def lookupRow (s : Store) (tk : String) (d : ℤ) : Option Row :=
  s.find? (fun r => r.ticker = tk ∧ r.date = d)

/-- `SELECT COUNT(*) FROM daily_prices WHERE date = ?`. -/
def countForDate (s : Store) (d : ℤ) : ℕ :=
  (s.filter (fun r => r.date = d)).length

/-! ## Fetch layer (`prices.py`) -/

/-- `_fetch_grouped_for_date` against a response oracle `resp`.
On 429 the source runs `time.sleep(65)`, but `prices.py` imports only
`sleep` from `time`, so the handler raises `NameError` instead of retrying.
Then `r.raise_for_status()` raises on any 4xx/5xx, and otherwise the
(possibly empty) `results` list is returned. -/
def fetch_grouped_for_date (resp : ℤ → PolyResponse) (d : ℤ) : Except PyErr (List Bar) :=
  let r := resp d
  if r.status = 429 then .error .nameError
  else if 400 ≤ r.status then .error (.httpError r.status)
  else .ok r.results

/-- The `while True` loop of `backtrack_grouped_to_available`, restructured as
recursion on the remaining budget `R = max_weekdays_back + 1 - attempts_used`
(the loop raises after an empty attempt exactly when `attempts_used` would
exceed `max_weekdays_back`, i.e. when `R = 1`).  The first component records
every date actually fetched, in order. -/
def backtrackGo (resp : ℤ → PolyResponse) : ℕ → ℤ → List ℤ × Except PyErr (ℤ × List Bar)
  | 0, _ => ([], .error .runtimeError)
  | R + 1, d =>
    let c := skipWeekend d
    match fetch_grouped_for_date resp c with
    | .error e => ([c], .error e)
    | .ok [] =>
      if R = 0 then ([c], .error .runtimeError)
      else
        let rest := backtrackGo resp R (c - 1)
        (c :: rest.1, rest.2)
    | .ok (b :: bs) => ([c], .ok (c, b :: bs))

/-- `backtrack_grouped_to_available(anchor, max_weekdays_back=maxBack)`. -/
def backtrack_grouped_to_available (resp : ℤ → PolyResponse) (maxBack : ℕ) (anchor : ℤ) :
    List ℤ × Except PyErr (ℤ × List Bar) :=
  backtrackGo resp (maxBack + 1) anchor

/-- Build a `daily_prices` row from a bar found for calendar day `d`:
the stored `date` column is the candidate day, not the bar's timestamp. -/
def mkRow (tk : String) (d : ℤ) (b : Bar) : Row :=
  ⟨tk, d, b.o, b.h, b.l, b.c, b.v⟩

/-- The fetch loop of `_store_single_ticker_close`, same budget discipline as
`backtrackGo` (`R = max_back_weekdays + 1 - attempts_used`; on exhaustion it
returns `none` instead of raising).  On 429 the source again calls
`time.sleep(65)` without having imported `time`, hence `NameError`. -/
def singleGo (resp : ℤ → PolyResponse) (tk : String) :
    ℕ → ℤ → Store → List ℤ × Except PyErr (Store × Option ℤ)
  | 0, _, s => ([], .ok (s, none))
  | R + 1, cur, s =>
    let c := skipWeekend cur
    let r := resp c
    if r.status = 429 then ([c], .error .nameError)
    else if 400 ≤ r.status then ([c], .error (.httpError r.status))
    else
      match r.results with
      | [] =>
        if R = 0 then ([c], .ok (s, none))
        else
          let rest := singleGo resp tk R (c - 1) s
          (c :: rest.1, rest.2)
      | b :: _ => ([c], .ok (insertOrIgnore s (mkRow tk c b), some c))

/-- `_store_single_ticker_close(ticker, dt, max_back_weekdays=maxBack)`:
if a row keyed `(tk, dt)` already exists the function returns `dt` at once,
before any weekend adjustment and without any HTTP request. -/
def store_single_ticker_close (resp : ℤ → PolyResponse) (tk : String) (dt : ℤ)
    (maxBack : ℕ) (s : Store) : List ℤ × Except PyErr (Store × Option ℤ) :=
  if containsKey s tk dt then ([], .ok (s, some dt))
  else singleGo resp tk (maxBack + 1) dt s

/-- Pure descriptor of `singleGo`: the fetch loop never reads the store, so
its attempts and outcome (found date and bar, exhaustion, or exception) are
store-independent.  A proof device, related to `singleGo` below. -/
def singleProbe (resp : ℤ → PolyResponse) : ℕ → ℤ → List ℤ × Except PyErr (Option (ℤ × Bar))
  | 0, _ => ([], .ok none)
  | R + 1, cur =>
    let c := skipWeekend cur
    let r := resp c
    if r.status = 429 then ([c], .error .nameError)
    else if 400 ≤ r.status then ([c], .error (.httpError r.status))
    else
      match r.results with
      | [] =>
        if R = 0 then ([c], .ok none)
        else
          let rest := singleProbe resp R (c - 1)
          (c :: rest.1, rest.2)
      | b :: _ => ([c], .ok (some (c, b)))

/-! ## Sync orchestrator (`sync_grouped_bars`) -/

/-- `cnt > 0.9 * len(symbols)` as an exact comparison.  (For universe sizes
in this program's range the IEEE-double product `0.9 * len` compares to the
integer count exactly as the rational `9·len/10` does, so the model loses
nothing.) -/
def coverageOK (cnt : ℕ) (n : ℕ) : Bool := 9 * n < 10 * cnt

deriving instance DecidableEq for Except

/-- Instrumented outcome of one `sync_grouped_bars` call: the dates of the
grouped fetches actually issued, whether `_store_single_ticker_close` was
invoked, the dates of its single-ticker fetches, the date the grouped
resolver settled on (if any), the final table, and the returned date or the
escaping exception. -/
structure SyncOutcome where
  groupedAttempts : List ℤ
  singleInvoked : Bool
  singleAttempts : List ℤ
  resolvedDate : Option ℤ
  store : Store
  result : Except PyErr ℤ
deriving DecidableEq, Repr

/-- `sync_grouped_bars(as_of, max_back_weekdays=maxBack)` with the universe
symbol set, the current table, and the two response oracles (grouped
endpoint `gresp`, single-ticker endpoint `sresp`) made explicit.  The
benchmark single-ticker close is always attempted for `"VOO"`. -/
def sync_grouped_bars (gresp sresp : ℤ → PolyResponse) (symbols : Finset String)
    (s : Store) (as_of : ℤ) (maxBack : ℕ) : SyncOutcome :=
  let target := last_trading_thursday as_of
  if coverageOK (countForDate s target) symbols.card then
    match store_single_ticker_close sresp "VOO" target maxBack s with
    | (sa, .ok (s1, _)) => ⟨[], true, sa, some target, s1, .ok target⟩
    | (sa, .error e) => ⟨[], true, sa, some target, s, .error e⟩
  else
    match backtrack_grouped_to_available gresp maxBack target with
    | (ga, .error e) => ⟨ga, false, [], none, s, .error e⟩
    | (ga, .ok (resolved, data)) =>
      if coverageOK (countForDate s resolved) symbols.card then
        match store_single_ticker_close sresp "VOO" resolved maxBack s with
        | (sa, .ok (s1, _)) => ⟨ga, true, sa, some resolved, s1, .ok resolved⟩
        | (sa, .error e) => ⟨ga, true, sa, some resolved, s, .error e⟩
      else
        let rows := (data.filter (fun b => b.T ∈ symbols)).map (fun b => mkRow b.T resolved b)
        let s1 := upsert_many s rows
        match store_single_ticker_close sresp "VOO" resolved maxBack s1 with
        | (sa, .ok (s2, _)) => ⟨ga, true, sa, some resolved, s2, .ok resolved⟩
        | (sa, .error e) => ⟨ga, true, sa, some resolved, s1, .error e⟩

/-! ## The process-wide rate limiter (`chart_module.py`) -/

/-- `_WINDOW = 60` seconds. -/
def WINDOW : ℚ := 60

/-- `_MAX_CALLS = 5`. -/
def MAX_CALLS : ℕ := 5

/-- `while _CALL_LOG and now - _CALL_LOG[0] >= _WINDOW: _CALL_LOG.popleft()`. -/
def dropExpired (now : ℚ) (log : List ℚ) : List ℚ :=
  log.dropWhile (fun t => decide (WINDOW ≤ now - t))

/-- One execution of `_rate_limited_get`'s locked section at clock reading
`now`: expire old entries, then either record the call-start and grant, or
deny (the caller will sleep and try again later). -/
def rlAttempt (log : List ℚ) (now : ℚ) : List ℚ × Bool :=
  let l := dropExpired now log
  if l.length < MAX_CALLS then (l ++ [now], true) else (l, false)

/-- Run the gate over a (monotone) sequence of lock acquisitions and collect
the granted call-start times. -/
def rlGrants : List ℚ → List ℚ → List ℚ
  | _, [] => []
  | log, n :: ns =>
    let a := rlAttempt log n
    if a.2 then n :: rlGrants a.1 ns else rlGrants a.1 ns

/-! ## 429 handling (`_rate_limited_get` retry, `Retry-After` parsing) -/

/-- The digits of a decimal numeral: at least one character, all digits. -/
def pyIntDigits (cs : List Char) : Option ℕ :=
  if cs ≠ [] ∧ cs.all Char.isDigit
  then some (cs.foldl (fun n c => 10 * n + (c.toNat - 48)) 0)
  else none

/-- Python `int(s)` on a string: strip surrounding whitespace, allow one
optional sign, then require a decimal numeral; anything else raises
`ValueError`. -/
def pyInt (s : String) : Except PyErr ℤ :=
  let cs := ((s.data.dropWhile Char.isWhitespace).reverse.dropWhile Char.isWhitespace).reverse
  match cs with
  | '-' :: rest =>
    match pyIntDigits rest with
    | some n => .ok (-(n : ℤ))
    | none => .error .valueError
  | '+' :: rest =>
    match pyIntDigits rest with
    | some n => .ok (n : ℤ)
    | none => .error .valueError
  | _ =>
    match pyIntDigits cs with
    | some n => .ok (n : ℤ)
    | none => .error .valueError

/-- `int(r.headers.get("Retry-After", "15"))`. -/
def parse_retry_after (header : Option String) : Except PyErr ℤ :=
  pyInt (header.getD "15")

/-- The retry structure of `_rate_limited_get`: on a 429 it parses
`Retry-After` (sleeping does not change the outcome), then re-enters itself
on the next response; on another 4xx/5xx `raise_for_status` fires; otherwise
the response is returned.  The list is the sequence of responses the session
yields to successive requests. -/
def rate_limited_get : List PolyResponse → Except PyErr PolyResponse
  | [] => .error .runtimeError
  | r :: rest =>
    if r.status = 429 then
      match parse_retry_after r.retryAfter with
      | .error e => .error e
      | .ok _ => rate_limited_get rest
    else if 400 ≤ r.status then .error (.httpError r.status)
    else .ok r

/-! ## Concrete scenarios

Day numbers: 19858 = 2024-05-15 (Wednesday), 19859 = 2024-05-16 (Thursday),
19860 = 2024-05-17 (Friday), 19861 = 2024-05-18 (Saturday). -/

/-- Grouped oracle for the Saturday scenario: Friday and Thursday answer 200
with zero rows, Wednesday has three bars for AAA, BBB, CCC. -/
def satGResp : ℤ → PolyResponse := fun d =>
  if d = 19858 then
    ⟨200, none, [⟨"AAA", 1, 2, 1, 2, 100, 0⟩, ⟨"BBB", 3, 4, 3, 4, 200, 0⟩,
      ⟨"CCC", 5, 6, 5, 6, 300, 0⟩]⟩
  else ⟨200, none, []⟩

/-- Single-ticker oracle with no data anywhere (200, zero rows). -/
def emptySResp : ℤ → PolyResponse := fun _ => ⟨200, none, []⟩

/-- The Saturday scenario run: as-of 2024-05-18 (Saturday), universe
`{AAA, BBB}`, empty store, default lookback 5. -/
def satOut : SyncOutcome :=
  sync_grouped_bars satGResp emptySResp {"AAA", "BBB"} [] 19861 5

/-- Grouped oracle whose Thursday bar carries a timestamp belonging to the
following UTC day. -/
def tsGResp : ℤ → PolyResponse := fun d =>
  if d = 19859 then ⟨200, none, [⟨"AAA", 1, 1, 1, 1, 1, 19860 * 86400000⟩]⟩
  else ⟨200, none, []⟩

/-- The timestamp scenario run: as-of 2024-05-16 (Thursday), universe
`{AAA}`, empty store. -/
def tsOut : SyncOutcome :=
  sync_grouped_bars tsGResp emptySResp {"AAA"} [] 19859 5

/-! ## Supporting lemmas -/

theorem skipWeekendFuel_succ (n : ℕ) (d : ℤ) :
    skipWeekendFuel (n + 1) d = if 5 ≤ pyWeekday d then skipWeekendFuel n (d - 1) else d := rfl

/-- Closed form of the weekend-skipping loop: Saturday steps to Friday,
Sunday steps to Friday two days earlier, weekdays are untouched. -/
theorem skipWeekend_eq (d : ℤ) :
    skipWeekend d =
      if pyWeekday d = 5 then d - 1 else if pyWeekday d = 6 then d - 2 else d := by
  have h0 : 0 ≤ (d + 3) % 7 := Int.emod_nonneg _ (by norm_num)
  have h7 : (d + 3) % 7 < 7 := Int.emod_lt_of_pos _ (by norm_num)
  show skipWeekendFuel 7 d = _
  rw [show (7 : ℕ) = 6 + 1 from rfl, skipWeekendFuel_succ]
  unfold pyWeekday
  rcases (by omega : (d + 3) % 7 = 5 ∨ (d + 3) % 7 = 6 ∨ (d + 3) % 7 < 5) with h | h | h
  · have e1 : (d - 1 + 3) % 7 = 4 := by omega
    rw [show (6 : ℕ) = 5 + 1 from rfl, if_pos (by omega), skipWeekendFuel_succ]
    unfold pyWeekday
    rw [if_neg (by omega), if_pos h]
  · have e1 : (d - 1 + 3) % 7 = 5 := by omega
    have e2 : (d - 1 - 1 + 3) % 7 = 4 := by omega
    rw [show (6 : ℕ) = 5 + 1 from rfl, if_pos (by omega), skipWeekendFuel_succ]
    unfold pyWeekday
    rw [show (5 : ℕ) = 4 + 1 from rfl, if_pos (by omega), skipWeekendFuel_succ]
    unfold pyWeekday
    rw [if_neg (by omega), if_neg (by omega), if_pos h]
    ring
  · rw [if_neg (by omega), if_neg (by omega), if_neg (by omega)]

/-- The weekend-skipping loop always lands on a weekday. -/
theorem pyWeekday_skipWeekend_lt (d : ℤ) : pyWeekday (skipWeekend d) < 5 := by
  have h0 : 0 ≤ (d + 3) % 7 := Int.emod_nonneg _ (by norm_num)
  have h7 : (d + 3) % 7 < 7 := Int.emod_lt_of_pos _ (by norm_num)
  rw [skipWeekend_eq]
  unfold pyWeekday
  rcases (by omega : (d + 3) % 7 = 5 ∨ (d + 3) % 7 = 6 ∨ (d + 3) % 7 < 5) with h | h | h
  · rw [if_pos h]; omega
  · rw [if_neg (by omega), if_pos h]; omega
  · rw [if_neg (by omega), if_neg (by omega)]; omega

/-- On a weekday the skipping loop is the identity. -/
theorem skipWeekend_of_weekday {d : ℤ} (h : pyWeekday d < 5) : skipWeekend d = d := by
  rw [skipWeekend_eq, if_neg (by omega), if_neg (by omega)]

/-! ## Store lemmas -/

theorem containsKey_append (s t : Store) (tk : String) (d : ℤ) :
    containsKey (s ++ t) tk d = (containsKey s tk d || containsKey t tk d) := by
  simp [containsKey, List.any_append]

theorem containsKey_insertOrIgnore_mono {s : Store} {tk : String} {d : ℤ} (r : Row)
    (h : containsKey s tk d = true) : containsKey (insertOrIgnore s r) tk d = true := by
  unfold insertOrIgnore
  split
  · exact h
  · rw [containsKey_append, h]; rfl

theorem containsKey_upsert_many_mono {s : Store} {tk : String} {d : ℤ} (rows : List Row)
    (h : containsKey s tk d = true) : containsKey (upsert_many s rows) tk d = true := by
  induction rows generalizing s with
  | nil => exact h
  | cons r rest ih => exact ih (containsKey_insertOrIgnore_mono r h)

theorem containsKey_self_insertOrIgnore (s : Store) (r : Row) :
    containsKey (insertOrIgnore s r) r.ticker r.date = true := by
  unfold insertOrIgnore
  split
  · assumption
  · rw [containsKey_append]
    simp [containsKey]

theorem containsKey_of_mem_upsert_many {s : Store} (rows : List Row) {r : Row}
    (h : r ∈ rows) : containsKey (upsert_many s rows) r.ticker r.date = true := by
  induction rows generalizing s with
  | nil => cases h
  | cons x rest ih =>
    rcases List.mem_cons.mp h with rfl | h
    · exact containsKey_upsert_many_mono rest (containsKey_self_insertOrIgnore s r)
    · exact ih h

theorem upsert_many_of_all_present {s : Store} {rows : List Row}
    (h : ∀ r ∈ rows, containsKey s r.ticker r.date = true) : upsert_many s rows = s := by
  induction rows with
  | nil => rfl
  | cons x rest ih =>
    show upsert_many (insertOrIgnore s x) rest = s
    rw [insertOrIgnore, if_pos (h x (List.mem_cons_self x rest))]
    exact ih (fun r hr => h r (List.mem_cons_of_mem x hr))

theorem lookupRow_append_of_containsKey {s : Store} (t : Store) {tk : String} {d : ℤ}
    (h : containsKey s tk d = true) : lookupRow (s ++ t) tk d = lookupRow s tk d := by
  unfold lookupRow
  rw [List.find?_append]
  unfold containsKey at h
  rcases List.any_eq_true.mp h with ⟨r, hr, hp⟩
  have : s.find? (fun r => decide (r.ticker = tk ∧ r.date = d)) ≠ none := by
    intro hn
    exact absurd hp (by simpa using List.find?_eq_none.mp hn r hr)
  cases hfind : s.find? (fun r => decide (r.ticker = tk ∧ r.date = d)) with
  | none => exact absurd hfind this
  | some v => rfl

theorem lookupRow_insertOrIgnore_of_containsKey {s : Store} (r : Row) {tk : String} {d : ℤ}
    (h : containsKey s tk d = true) : lookupRow (insertOrIgnore s r) tk d = lookupRow s tk d := by
  unfold insertOrIgnore
  split
  · rfl
  · exact lookupRow_append_of_containsKey [r] h

theorem lookupRow_upsert_many_of_containsKey {s : Store} (rows : List Row) {tk : String} {d : ℤ}
    (h : containsKey s tk d = true) : lookupRow (upsert_many s rows) tk d = lookupRow s tk d := by
  induction rows generalizing s with
  | nil => rfl
  | cons x rest ih =>
    show lookupRow (upsert_many (insertOrIgnore s x) rest) tk d = _
    rw [ih (containsKey_insertOrIgnore_mono x h), lookupRow_insertOrIgnore_of_containsKey x h]

theorem insertOrIgnore_append_form (s : Store) (r : Row) :
    insertOrIgnore s r = s ∨ insertOrIgnore s r = s ++ [r] := by
  unfold insertOrIgnore
  split
  · exact Or.inl rfl
  · exact Or.inr rfl

theorem upsert_many_exists_ext (s : Store) (rows : List Row) :
    ∃ ext, upsert_many s rows = s ++ ext := by
  induction rows generalizing s with
  | nil => exact ⟨[], by simp [upsert_many]⟩
  | cons x rest ih =>
    show ∃ ext, upsert_many (insertOrIgnore s x) rest = s ++ ext
    rcases insertOrIgnore_append_form s x with h | h
    · rw [h]; exact ih s
    · rcases ih (s ++ [x]) with ⟨ext, hext⟩
      exact ⟨[x] ++ ext, by rw [h, hext, List.append_assoc]⟩

theorem countForDate_append (s t : Store) (d : ℤ) :
    countForDate (s ++ t) d = countForDate s d + countForDate t d := by
  simp [countForDate, List.filter_append]

theorem mem_upsert_many {s : Store} {rows : List Row} {r : Row}
    (h : r ∈ upsert_many s rows) : r ∈ s ∨ r ∈ rows := by
  induction rows generalizing s with
  | nil => exact Or.inl h
  | cons x rest ih =>
    have h' : r ∈ upsert_many (insertOrIgnore s x) rest := h
    rcases ih h' with hs | hr
    · rcases insertOrIgnore_append_form s x with he | he
      · rw [he] at hs; exact Or.inl hs
      · rw [he] at hs
        rcases List.mem_append.mp hs with hs | hs
        · exact Or.inl hs
        · simp only [List.mem_singleton] at hs
          exact Or.inr (hs ▸ List.mem_cons_self x rest)
    · exact Or.inr (List.mem_cons_of_mem x hr)

/-- How `singleGo` acts on the store, in terms of `singleProbe`. -/
theorem singleGo_eq_probe (resp : ℤ → PolyResponse) (tk : String) :
    ∀ (R : ℕ) (cur : ℤ) (s : Store),
      singleGo resp tk R cur s =
        ((singleProbe resp R cur).1,
          match (singleProbe resp R cur).2 with
          | .error e => .error e
          | .ok none => .ok (s, none)
          | .ok (some (c, b)) => .ok (insertOrIgnore s (mkRow tk c b), some c)) := by
  intro R
  induction R with
  | zero => intro cur s; rfl
  | succ R ih =>
    intro cur s
    by_cases h429 : (resp (skipWeekend cur)).status = 429
    · simp [singleGo, singleProbe, h429]
    · by_cases h400 : 400 ≤ (resp (skipWeekend cur)).status
      · simp [singleGo, singleProbe, h429, h400]
      · cases hres : (resp (skipWeekend cur)).results with
        | nil =>
          by_cases hR : R = 0
          · subst hR; simp [singleGo, singleProbe, h429, h400, hres]
          · simp [singleGo, singleProbe, h429, h400, hres, hR, ih]
        | cons b bs => simp [singleGo, singleProbe, h429, h400, hres]

/-- With an always-empty (HTTP 200, zero rows) oracle, the grouped backtrack
loop burns its entire budget: `R` fetches, all failing, ending in the
`RuntimeError`. -/
theorem backtrackGo_all_empty (resp : ℤ → PolyResponse)
    (hresp : ∀ d, resp d = ⟨200, none, []⟩) :
    ∀ (R : ℕ) (d : ℤ), (backtrackGo resp R d).2 = .error .runtimeError ∧
      (backtrackGo resp R d).1.length = R ∧
      ∀ a ∈ (backtrackGo resp R d).1, pyWeekday a < 5 := by
  intro R
  induction R with
  | zero => intro d; refine ⟨rfl, rfl, by intro a ha; cases ha⟩
  | succ R ih =>
    intro d
    by_cases hR : R = 0
    · subst hR
      refine ⟨?_, ?_, ?_⟩ <;>
        simp [backtrackGo, fetch_grouped_for_date, hresp, pyWeekday_skipWeekend_lt]
    · have h1 : (backtrackGo resp (R + 1) d).1 =
          skipWeekend d :: (backtrackGo resp R (skipWeekend d - 1)).1 := by
        simp [backtrackGo, fetch_grouped_for_date, hresp, hR]
      have h2 : (backtrackGo resp (R + 1) d).2 =
          (backtrackGo resp R (skipWeekend d - 1)).2 := by
        simp [backtrackGo, fetch_grouped_for_date, hresp, hR]
      obtain ⟨ihe, ihl, ihw⟩ := ih (skipWeekend d - 1)
      refine ⟨h2 ▸ ihe, ?_, ?_⟩
      · rw [h1]; simp [ihl]
      · rw [h1]
        intro a ha
        rcases List.mem_cons.mp ha with rfl | ha
        · exact pyWeekday_skipWeekend_lt d
        · exact ihw a ha

/-- The first grouped fetch of the backtrack loop always targets the
weekend-adjusted anchor. -/
theorem backtrackGo_head (resp : ℤ → PolyResponse) (R : ℕ) (d : ℤ) :
    (backtrackGo resp (R + 1) d).1.head? = some (skipWeekend d) := by
  show (match fetch_grouped_for_date resp (skipWeekend d) with
    | .error e => ([skipWeekend d], Except.error e)
    | .ok [] =>
      if R = 0 then ([skipWeekend d], Except.error .runtimeError)
      else
        let rest := backtrackGo resp R (skipWeekend d - 1)
        (skipWeekend d :: rest.1, rest.2)
    | .ok (b :: bs) => ([skipWeekend d], Except.ok (skipWeekend d, b :: bs))).1.head? = _
  rcases fetch_grouped_for_date resp (skipWeekend d) with e | (_ | ⟨b, bs⟩)
  · rfl
  · by_cases hR : R = 0
    · rw [if_pos hR]; rfl
    · rw [if_neg hR]; rfl
  · rfl

/-- A date the grouped backtrack loop resolves to is never a weekend day. -/
theorem backtrackGo_ok_weekday (resp : ℤ → PolyResponse) :
    ∀ (R : ℕ) (d c : ℤ) (bs : List Bar),
      (backtrackGo resp R d).2 = .ok (c, bs) → pyWeekday c < 5 := by
  intro R
  induction R with
  | zero => intro d c bs h; cases h
  | succ R ih =>
    intro d c bs h
    have hsplit : (backtrackGo resp (R + 1) d).2 =
        (match fetch_grouped_for_date resp (skipWeekend d) with
          | .error e => Except.error e
          | .ok [] =>
            if R = 0 then Except.error .runtimeError
            else (backtrackGo resp R (skipWeekend d - 1)).2
          | .ok (b :: bs') => Except.ok (skipWeekend d, b :: bs')) := by
      show (match fetch_grouped_for_date resp (skipWeekend d) with
        | .error e => ([skipWeekend d], Except.error e)
        | .ok [] =>
          if R = 0 then ([skipWeekend d], Except.error .runtimeError)
          else
            let rest := backtrackGo resp R (skipWeekend d - 1)
            (skipWeekend d :: rest.1, rest.2)
        | .ok (b :: bs') => ([skipWeekend d], Except.ok (skipWeekend d, b :: bs'))).2 = _
      rcases fetch_grouped_for_date resp (skipWeekend d) with e | (_ | ⟨b, bs'⟩)
      · rfl
      · by_cases hR : R = 0
        · rw [if_pos hR, if_pos hR]
        · rw [if_neg hR, if_neg hR]
      · rfl
    rw [hsplit] at h
    rcases hfe : fetch_grouped_for_date resp (skipWeekend d) with e | (_ | ⟨b, bs'⟩) <;>
        rw [hfe] at h
    · cases h
    · by_cases hR : R = 0
      · rw [if_pos hR] at h; cases h
      · rw [if_neg hR] at h; exact ih _ c bs h
    · cases h
      exact pyWeekday_skipWeekend_lt d

/-- With an always-empty oracle the single-ticker probe also burns its whole
budget and reports nothing found. -/
theorem singleProbe_all_empty (resp : ℤ → PolyResponse)
    (hresp : ∀ d, resp d = ⟨200, none, []⟩) :
    ∀ (R : ℕ) (cur : ℤ), (singleProbe resp R cur).2 = .ok none ∧
      (singleProbe resp R cur).1.length = R := by
  intro R
  induction R with
  | zero => intro cur; exact ⟨rfl, rfl⟩
  | succ R ih =>
    intro cur
    by_cases hR : R = 0
    · subst hR; constructor <;> simp [singleProbe, hresp]
    · constructor <;> simp [singleProbe, hresp, hR, ih]

/-- One successful step of the backtrack loop: if the weekend-adjusted
candidate answers 200 with a non-empty result list, the loop resolves to it
at once. -/
theorem backtrackGo_succ_found (resp : ℤ → PolyResponse) (R : ℕ) (d : ℤ)
    (hstat : (resp (skipWeekend d)).status = 200)
    {b : Bar} {bs : List Bar} (hres : (resp (skipWeekend d)).results = b :: bs) :
    backtrackGo resp (R + 1) d = ([skipWeekend d], .ok (skipWeekend d, b :: bs)) := by
  have hfe : fetch_grouped_for_date resp (skipWeekend d) = .ok (b :: bs) := by
    unfold fetch_grouped_for_date
    rw [if_neg (by rw [hstat]; omega), if_neg (by rw [hstat]; omega), hres]
  show (match fetch_grouped_for_date resp (skipWeekend d) with
    | .error e => ([skipWeekend d], Except.error e)
    | .ok [] =>
      if R = 0 then ([skipWeekend d], Except.error .runtimeError)
      else
        let rest := backtrackGo resp R (skipWeekend d - 1)
        (skipWeekend d :: rest.1, rest.2)
    | .ok (b' :: bs') => ([skipWeekend d], Except.ok (skipWeekend d, b' :: bs'))) = _
  rw [hfe]

/-- Unfolding lemma for `singleProbe` at a successor budget. -/
theorem singleProbe_succ (resp : ℤ → PolyResponse) (R : ℕ) (cur : ℤ) :
    singleProbe resp (R + 1) cur =
      (let c := skipWeekend cur
       let r := resp c
       if r.status = 429 then ([c], .error .nameError)
       else if 400 ≤ r.status then ([c], .error (.httpError r.status))
       else
         match r.results with
         | [] =>
           if R = 0 then ([c], .ok none)
           else (c :: (singleProbe resp R (c - 1)).1, (singleProbe resp R (c - 1)).2)
         | b :: _ => ([c], .ok (some (c, b)))) := rfl

/-- Against an oracle that always answers 200, the single-ticker probe never
raises: it either finds nothing or finds a bar at some candidate date. -/
theorem singleProbe_ok_of_200 (resp : ℤ → PolyResponse)
    (h200 : ∀ d, (resp d).status = 200) :
    ∀ (R : ℕ) (cur : ℤ), (singleProbe resp R cur).2 = .ok none ∨
      ∃ c b, (singleProbe resp R cur).2 = .ok (some (c, b)) := by
  intro R
  induction R with
  | zero => intro cur; exact Or.inl rfl
  | succ R ih =>
    intro cur
    cases hres : (resp (skipWeekend cur)).results with
    | nil =>
      by_cases hR : R = 0
      · left; simp [singleProbe_succ, h200 (skipWeekend cur), hres, hR]
      · rcases ih (skipWeekend cur - 1) with h | ⟨c, b, h⟩
        · left; simp [singleProbe_succ, h200 (skipWeekend cur), hres, hR, h]
        · right
          exact ⟨c, b, by simp [singleProbe_succ, h200 (skipWeekend cur), hres, hR, h]⟩
    | cons b bs =>
      right
      exact ⟨skipWeekend cur, b, by simp [singleProbe_succ, h200 (skipWeekend cur), hres]⟩

/-- Against a 200-oracle, `_store_single_ticker_close` succeeds with a store
that only grew, and running it again from the resulting store returns the
same store and the same date. -/
theorem single_close_200 (resp : ℤ → PolyResponse) (tk : String) (dt : ℤ)
    (maxBack : ℕ) (s : Store) (h200 : ∀ d, (resp d).status = 200) :
    ∃ s2 r, (store_single_ticker_close resp tk dt maxBack s).2 = .ok (s2, r) ∧
      (∃ ext, s2 = s ++ ext) ∧
      (store_single_ticker_close resp tk dt maxBack s2).2 = .ok (s2, r) := by
  by_cases hk : containsKey s tk dt = true
  · refine ⟨s, some dt, ?_, ⟨[], by simp⟩, ?_⟩ <;>
      · unfold store_single_ticker_close
        rw [if_pos hk]
  · have hkf : containsKey s tk dt = false := by
      cases h : containsKey s tk dt
      · rfl
      · exact absurd h hk
    have hfirst : (store_single_ticker_close resp tk dt maxBack s).2 =
        (match (singleProbe resp (maxBack + 1) dt).2 with
          | .error e => .error e
          | .ok none => Except.ok (s, none)
          | .ok (some (c, b)) => Except.ok (insertOrIgnore s (mkRow tk c b), some c)) := by
      unfold store_single_ticker_close
      rw [if_neg hk, singleGo_eq_probe]
    rcases singleProbe_ok_of_200 resp h200 (maxBack + 1) dt with hp | ⟨c, b, hp⟩
    · refine ⟨s, none, by rw [hfirst, hp], ⟨[], by simp⟩, ?_⟩
      unfold store_single_ticker_close
      rw [if_neg hk, singleGo_eq_probe, hp]
    · refine ⟨insertOrIgnore s (mkRow tk c b), some c, by rw [hfirst, hp], ?_, ?_⟩
      · rcases insertOrIgnore_append_form s (mkRow tk c b) with he | he
        · exact ⟨[], by rw [he]; simp⟩
        · exact ⟨[mkRow tk c b], he⟩
      · by_cases hk2 : containsKey (insertOrIgnore s (mkRow tk c b)) tk dt = true
        · have hcd : c = dt := by
            unfold insertOrIgnore at hk2
            by_cases hkey : containsKey s (mkRow tk c b).ticker (mkRow tk c b).date = true
            · rw [if_pos hkey] at hk2
              exact absurd hk2 hk
            · rw [if_neg hkey, containsKey_append, hkf] at hk2
              have : containsKey [mkRow tk c b] tk dt = true := by
                simpa using hk2
              simp [containsKey, mkRow] at this
              exact this
          unfold store_single_ticker_close
          rw [if_pos hk2, hcd]
        · have hk2f : containsKey (insertOrIgnore s (mkRow tk c b)) tk dt = false := by
            cases h : containsKey (insertOrIgnore s (mkRow tk c b)) tk dt
            · rfl
            · exact absurd h hk2
          unfold store_single_ticker_close
          rw [if_neg hk2, singleGo_eq_probe, hp]
          have : insertOrIgnore (insertOrIgnore s (mkRow tk c b)) (mkRow tk c b) =
              insertOrIgnore s (mkRow tk c b) := by
            unfold insertOrIgnore
            rw [if_pos (by
              have := containsKey_self_insertOrIgnore s (mkRow tk c b)
              simpa [insertOrIgnore] using this)]
          show Except.ok (insertOrIgnore (insertOrIgnore s (mkRow tk c b)) (mkRow tk c b),
              some c) = Except.ok (insertOrIgnore s (mkRow tk c b), some c)
          rw [this]

theorem mem_insertOrIgnore {s : Store} {x r : Row} (h : r ∈ insertOrIgnore s x) :
    r ∈ s ∨ r = x := by
  rcases insertOrIgnore_append_form s x with he | he <;> rw [he] at h
  · exact Or.inl h
  · rcases List.mem_append.mp h with h | h
    · exact Or.inl h
    · exact Or.inr (List.mem_singleton.mp h)

/-- When the single-ticker probe finds a bar at date `c`, that date is one of
its recorded fetch attempts. -/
theorem singleProbe_found_mem (resp : ℤ → PolyResponse) :
    ∀ (R : ℕ) (cur c : ℤ) (b : Bar),
      (singleProbe resp R cur).2 = .ok (some (c, b)) → c ∈ (singleProbe resp R cur).1 := by
  intro R
  induction R with
  | zero => intro cur c b h; cases h
  | succ R ih =>
    intro cur c b h
    rw [singleProbe_succ] at h ⊢
    by_cases h429 : (resp (skipWeekend cur)).status = 429
    · rw [if_pos h429] at h; cases h
    · rw [if_neg h429] at h ⊢
      by_cases h400 : 400 ≤ (resp (skipWeekend cur)).status
      · rw [if_pos h400] at h; cases h
      · rw [if_neg h400] at h ⊢
        cases hres : (resp (skipWeekend cur)).results with
        | nil =>
          rw [hres] at h
          by_cases hR : R = 0
          · rw [if_pos hR] at h; cases h
          · rw [if_neg hR] at h ⊢
            exact List.mem_cons_of_mem _ (ih (skipWeekend cur - 1) c b h)
        | cons b' bs' =>
          rw [hres] at h
          cases h
          exact List.mem_singleton.mpr rfl

/-- If `_store_single_ticker_close` returns a store, that store is either
unchanged or extended by one row whose date is one of the recorded fetch
attempts. -/
theorem single_close_ok_store (resp : ℤ → PolyResponse) (tk : String) (dt : ℤ)
    (maxBack : ℕ) (s s2 : Store) (r2 : Option ℤ)
    (h : (store_single_ticker_close resp tk dt maxBack s).2 = .ok (s2, r2)) :
    s2 = s ∨ ∃ c b, c ∈ (store_single_ticker_close resp tk dt maxBack s).1 ∧
      s2 = insertOrIgnore s (mkRow tk c b) := by
  by_cases hk : containsKey s tk dt = true
  · left
    unfold store_single_ticker_close at h
    rw [if_pos hk] at h
    cases h
    rfl
  · unfold store_single_ticker_close at h ⊢
    rw [if_neg hk, singleGo_eq_probe] at h ⊢
    rcases hp : (singleProbe resp (maxBack + 1) dt).2 with e | o
    · rw [hp] at h; cases h
    · rcases o with _ | ⟨c, b⟩ <;> rw [hp] at h
      · left; cases h; rfl
      · right
        cases h
        exact ⟨c, b, singleProbe_found_mem resp (maxBack + 1) dt c b hp, rfl⟩

/-- Rows of the store returned by `_store_single_ticker_close` either come
from the base store or are the fetched ticker's row dated at one of the
fetch attempts. -/
theorem single_close_mem (resp : ℤ → PolyResponse) (tk : String) (dt : ℤ) (maxBack : ℕ)
    (base s2 : Store) (rr : Option ℤ)
    (h : (store_single_ticker_close resp tk dt maxBack base).2 = .ok (s2, rr)) :
    ∀ r ∈ s2, r ∈ base ∨
      (r.ticker = tk ∧ r.date ∈ (store_single_ticker_close resp tk dt maxBack base).1) := by
  intro r hr
  rcases single_close_ok_store resp tk dt maxBack base s2 rr h with rfl | ⟨c, b, hcm, rfl⟩
  · exact Or.inl hr
  · rcases mem_insertOrIgnore hr with h2 | rfl
    · exact Or.inl h2
    · exact Or.inr ⟨rfl, hcm⟩

/-- Every row in the store after a sync either was there before, carries the
resolved date (grouped rows), or is the benchmark ticker's row dated at one
of the single-ticker fetch attempts. -/
theorem sync_store_row_provenance (gresp sresp : ℤ → PolyResponse) (symbols : Finset String)
    (s : Store) (as_of : ℤ) (maxBack : ℕ) :
    ∀ r ∈ (sync_grouped_bars gresp sresp symbols s as_of maxBack).store,
      r ∈ s ∨
      (sync_grouped_bars gresp sresp symbols s as_of maxBack).resolvedDate = some r.date ∨
      (r.ticker = "VOO" ∧
        r.date ∈ (sync_grouped_bars gresp sresp symbols s as_of maxBack).singleAttempts) := by
  by_cases hcov : coverageOK (countForDate s (last_trading_thursday as_of)) symbols.card = true
  · rcases hsc : store_single_ticker_close sresp "VOO" (last_trading_thursday as_of) maxBack s
      with ⟨sa, e | ⟨s1, rr⟩⟩
    · have hsync : sync_grouped_bars gresp sresp symbols s as_of maxBack =
          ⟨[], true, sa, some (last_trading_thursday as_of), s, .error e⟩ := by
        simp only [sync_grouped_bars]
        rw [if_pos hcov, hsc]
      rw [hsync]
      exact fun r hr => Or.inl hr
    · have hsync : sync_grouped_bars gresp sresp symbols s as_of maxBack =
          ⟨[], true, sa, some (last_trading_thursday as_of), s1, .ok (last_trading_thursday as_of)⟩ := by
        simp only [sync_grouped_bars]
        rw [if_pos hcov, hsc]
      rw [hsync]
      intro r hr
      rcases single_close_mem sresp "VOO" (last_trading_thursday as_of) maxBack s s1 rr
          (by rw [hsc]) r hr with h2 | ⟨ht, hd⟩
      · exact Or.inl h2
      · rw [hsc] at hd
        exact Or.inr (Or.inr ⟨ht, hd⟩)
  · rcases hbt : backtrack_grouped_to_available gresp maxBack (last_trading_thursday as_of)
      with ⟨ga, e | ⟨resolved, data⟩⟩
    · have hsync : sync_grouped_bars gresp sresp symbols s as_of maxBack =
          ⟨ga, false, [], none, s, .error e⟩ := by
        simp only [sync_grouped_bars]
        rw [if_neg hcov, hbt]
      rw [hsync]
      exact fun r hr => Or.inl hr
    · by_cases hcov2 : coverageOK (countForDate s resolved) symbols.card = true
      · rcases hsc : store_single_ticker_close sresp "VOO" resolved maxBack s
          with ⟨sa, e | ⟨s1, rr⟩⟩
        · have hsync : sync_grouped_bars gresp sresp symbols s as_of maxBack =
              ⟨ga, true, sa, some resolved, s, .error e⟩ := by
            simp [sync_grouped_bars, hbt, hsc, hcov, hcov2]
          rw [hsync]
          exact fun r hr => Or.inl hr
        · have hsync : sync_grouped_bars gresp sresp symbols s as_of maxBack =
              ⟨ga, true, sa, some resolved, s1, .ok resolved⟩ := by
            simp [sync_grouped_bars, hbt, hsc, hcov, hcov2]
          rw [hsync]
          intro r hr
          rcases single_close_mem sresp "VOO" resolved maxBack s s1 rr
              (by rw [hsc]) r hr with h2 | ⟨ht, hd⟩
          · exact Or.inl h2
          · rw [hsc] at hd
            exact Or.inr (Or.inr ⟨ht, hd⟩)
      · rcases hsc : store_single_ticker_close sresp "VOO" resolved maxBack
            (upsert_many s
              ((data.filter (fun b => b.T ∈ symbols)).map (fun b => mkRow b.T resolved b)))
          with ⟨sa, e | ⟨s2, rr⟩⟩
        · have hsync : sync_grouped_bars gresp sresp symbols s as_of maxBack =
              ⟨ga, true, sa, some resolved,
                upsert_many s
                  ((data.filter (fun b => b.T ∈ symbols)).map (fun b => mkRow b.T resolved b)),
                .error e⟩ := by
            simp [sync_grouped_bars, hbt, hsc, hcov, hcov2]
          rw [hsync]
          intro r hr
          rcases mem_upsert_many hr with h2 | h2
          · exact Or.inl h2
          · right; left
            rcases List.mem_map.mp h2 with ⟨b, _, rfl⟩
            rfl
        · have hsync : sync_grouped_bars gresp sresp symbols s as_of maxBack =
              ⟨ga, true, sa, some resolved, s2, .ok resolved⟩ := by
            simp [sync_grouped_bars, hbt, hsc, hcov, hcov2]
          rw [hsync]
          intro r hr
          rcases single_close_mem sresp "VOO" resolved maxBack
              (upsert_many s
                ((data.filter (fun b => b.T ∈ symbols)).map (fun b => mkRow b.T resolved b)))
              s2 rr (by rw [hsc]) r hr with h2 | ⟨ht, hd⟩
          · rcases mem_upsert_many h2 with h3 | h3
            · exact Or.inl h3
            · right; left
              rcases List.mem_map.mp h3 with ⟨b, _, rfl⟩
              rfl
          · rw [hsc] at hd
            exact Or.inr (Or.inr ⟨ht, hd⟩)

/-! ## Rate limiter lemmas -/

/-- A granting step of the gate: fewer than `MAX_CALLS` unexpired entries
remain, so the call-start is recorded. -/
theorem rlGrants_cons_grant (log : List ℚ) (n : ℚ) (ns : List ℚ)
    (hg : (dropExpired n log).length < MAX_CALLS) :
    rlGrants log (n :: ns) = n :: rlGrants (dropExpired n log ++ [n]) ns := by
  have ha : rlAttempt log n = (dropExpired n log ++ [n], true) := by
    unfold rlAttempt
    rw [if_pos hg]
  simp [rlGrants, ha]

/-- A denying step of the gate: the window is full, nothing is recorded. -/
theorem rlGrants_cons_deny (log : List ℚ) (n : ℚ) (ns : List ℚ)
    (hg : ¬(dropExpired n log).length < MAX_CALLS) :
    rlGrants log (n :: ns) = rlGrants (dropExpired n log) ns := by
  have ha : rlAttempt log n = (dropExpired n log, false) := by
    unfold rlAttempt
    rw [if_neg hg]
  simp [rlGrants, ha]

/-- Every granted call-start is one of the attempt instants, in order. -/
theorem rlGrants_sublist : ∀ (ts log : List ℚ), (rlGrants log ts).Sublist ts := by
  intro ts
  induction ts with
  | nil => intro log; exact List.Sublist.refl _
  | cons n ns ih =>
    intro log
    by_cases hg : (dropExpired n log).length < MAX_CALLS
    · rw [rlGrants_cons_grant log n ns hg]
      exact List.Sublist.cons₂ n (ih _)
    · rw [rlGrants_cons_deny log n ns hg]
      exact List.Sublist.cons n (ih _)

/-- Splitting principle for the gap argument: a 6-element sublist of
`D ++ (K ++ G)` with `D` entirely expired (older than `WINDOW` before `n`),
`|D| + |K| ≤ 5` and `G` entirely at or after `n` either lives in `K ++ G`
(handled by the inductive hypothesis) or contains an expired element and an
element at or after `n`, which are `WINDOW` apart. -/
theorem exists_gap_of_split (D K G : List ℚ) (n : ℚ) (s : List ℚ)
    (hD : ∀ x ∈ D, WINDOW ≤ n - x)
    (hG : ∀ y ∈ G, n ≤ y)
    (hlen : D.length + K.length ≤ 5)
    (hs : s.Sublist (D ++ (K ++ G)))
    (hslen : s.length = 6)
    (ihcase : ∀ s' : List ℚ, s'.Sublist (K ++ G) → s'.length = 6 →
      ∃ x ∈ s', ∃ y ∈ s', WINDOW ≤ y - x) :
    ∃ x ∈ s, ∃ y ∈ s, WINDOW ≤ y - x := by
  obtain ⟨s1, s2, rfl, hs1, hs2⟩ := List.sublist_append_iff.mp hs
  cases s1 with
  | nil =>
    simp only [List.nil_append] at hslen ⊢
    exact ihcase s2 hs2 hslen
  | cons x s1' =>
    have hxD : x ∈ D := hs1.subset (List.mem_cons_self x s1')
    have hxn : WINDOW ≤ n - x := hD x hxD
    obtain ⟨s2a, s2b, rfl, hs2a, hs2b⟩ := List.sublist_append_iff.mp hs2
    cases s2b with
    | nil =>
      exfalso
      have hsub : ((x :: s1') ++ s2a).Sublist (D ++ K) := hs1.append hs2a
      have hle := hsub.length_le
      simp only [List.length_append, List.length_cons, List.length_nil] at hle hslen
      omega
    | cons y s2b' =>
      have hyG : y ∈ G := hs2b.subset (List.mem_cons_self y s2b')
      have hyn : n ≤ y := hG y hyG
      refine ⟨x, ?_, y, ?_, by linarith⟩
      · exact List.mem_append.mpr (Or.inl (List.mem_cons_self x s1'))
      · exact List.mem_append.mpr
          (Or.inr (List.mem_append.mpr (Or.inr (List.mem_cons_self y s2b'))))

/-- Spacing invariant of the gate: among the call-starts granted from any
starting log of at most five entries, with attempt instants monotone, any
six grants (in order) span at least `WINDOW` seconds from first to last. -/
theorem rlGrants_gap : ∀ (ts log : List ℚ), List.Sorted (· ≤ ·) (log ++ ts) →
    log.length ≤ MAX_CALLS →
    ∀ s : List ℚ, s.Sublist (log ++ rlGrants log ts) → s.length = 6 →
    ∃ x ∈ s, ∃ y ∈ s, WINDOW ≤ y - x := by
  intro ts
  induction ts with
  | nil =>
    intro log hsort hlen s hs hslen
    exfalso
    have h1 : s.length ≤ log.length := by
      have h2 := hs.length_le
      simpa [rlGrants] using h2
    have h5 : MAX_CALLS = 5 := rfl
    omega
  | cons n ns ih =>
    intro log hsort hlen s hs hslen
    have h5 : MAX_CALLS = 5 := rfl
    have hDK : log.takeWhile (fun t => decide (WINDOW ≤ n - t)) ++ dropExpired n log = log := by
      unfold dropExpired
      exact List.takeWhile_append_dropWhile _ _
    have hD : ∀ x ∈ log.takeWhile (fun t => decide (WINDOW ≤ n - t)), WINDOW ≤ n - x := by
      intro x hx
      simpa using List.mem_takeWhile_imp hx
    have htail : ∀ m ∈ ns, n ≤ m := by
      have h2 := (List.pairwise_append.mp hsort).2.1
      exact fun m hm => (List.pairwise_cons.mp h2).1 m hm
    have hKsub : (dropExpired n log).Sublist log := List.dropWhile_sublist _
    have hlenDK : (log.takeWhile (fun t => decide (WINDOW ≤ n - t))).length +
        (dropExpired n log).length ≤ 5 := by
      have heq : (log.takeWhile (fun t => decide (WINDOW ≤ n - t))).length +
          (dropExpired n log).length = log.length := by
        rw [← List.length_append, hDK]
      omega
    by_cases hg : (dropExpired n log).length < MAX_CALLS
    · rw [rlGrants_cons_grant log n ns hg] at hs
      have hshape : log ++ n :: rlGrants (dropExpired n log ++ [n]) ns =
          log.takeWhile (fun t => decide (WINDOW ≤ n - t)) ++
            (dropExpired n log ++ (n :: rlGrants (dropExpired n log ++ [n]) ns)) := by
        rw [← List.append_assoc, hDK]
      rw [hshape] at hs
      refine exists_gap_of_split _ _ _ n s hD ?_ hlenDK hs hslen ?_
      · intro y hy
        rcases List.mem_cons.mp hy with rfl | hy2
        · exact le_refl y
        · exact htail y ((rlGrants_sublist ns (dropExpired n log ++ [n])).subset hy2)
      · intro s' hs' hslen'
        have hsub2 : ((dropExpired n log ++ [n]) ++ ns).Sublist (log ++ n :: ns) := by
          rw [List.append_assoc]
          exact hKsub.append_right ([n] ++ ns)
        refine ih (dropExpired n log ++ [n]) (List.Pairwise.sublist hsub2 hsort) ?_ s' ?_ hslen'
        · simp only [List.length_append, List.length_cons, List.length_nil]
          omega
        · rw [List.append_assoc]
          exact hs'
    · rw [rlGrants_cons_deny log n ns hg] at hs
      have hshape : log ++ rlGrants (dropExpired n log) ns =
          log.takeWhile (fun t => decide (WINDOW ≤ n - t)) ++
            (dropExpired n log ++ rlGrants (dropExpired n log) ns) := by
        rw [← List.append_assoc, hDK]
      rw [hshape] at hs
      refine exists_gap_of_split _ _ _ n s hD ?_ hlenDK hs hslen ?_
      · intro y hy
        exact htail y ((rlGrants_sublist ns (dropExpired n log)).subset hy)
      · intro s' hs' hslen'
        have hsub2 : (dropExpired n log ++ ns).Sublist (log ++ n :: ns) :=
          hKsub.append (List.Sublist.cons n (List.Sublist.refl ns))
        exact ih (dropExpired n log) (List.Pairwise.sublist hsub2 hsort)
          (le_trans hKsub.length_le hlen) s' hs' hslen'

/-! ## Claim theorems -/

/-- C1.  The shared rate-limiter gate never lets more than `MAX_CALLS = 5`
call-starts fall inside any trailing `WINDOW = 60` second interval: for any
monotone sequence of attempts at the locked section (all callers in the
process serialize through one lock and one deque), every window `(T-60, T]`
contains at most 5 granted call-starts. -/
theorem rate_limiter_window_bound (ts : List ℚ) (hts : List.Sorted (· ≤ ·) ts) (T : ℚ) :
    ((rlGrants [] ts).filter (fun t => decide (T - WINDOW < t ∧ t ≤ T))).length
      ≤ MAX_CALLS := by
  by_contra hc
  push_neg at hc
  have h5 : MAX_CALLS = 5 := rfl
  have h6 : 6 ≤ ((rlGrants [] ts).filter
      (fun t => decide (T - WINDOW < t ∧ t ≤ T))).length := by omega
  have htake : (((rlGrants [] ts).filter
      (fun t => decide (T - WINDOW < t ∧ t ≤ T))).take 6).Sublist
      ([] ++ rlGrants [] ts) := by
    simp only [List.nil_append]
    exact (List.take_sublist 6 _).trans (List.filter_sublist _)
  have hlen6 : (((rlGrants [] ts).filter
      (fun t => decide (T - WINDOW < t ∧ t ≤ T))).take 6).length = 6 := by
    rw [List.length_take]
    omega
  obtain ⟨x, hx, y, hy, hgap⟩ := rlGrants_gap ts [] (by simpa using hts)
    (by simp [MAX_CALLS]) _ htake hlen6
  have hxw : T - WINDOW < x ∧ x ≤ T := by
    have := List.mem_filter.mp (List.mem_of_mem_take hx)
    simpa using this.2
  have hyw : T - WINDOW < y ∧ y ≤ T := by
    have := List.mem_filter.mp (List.mem_of_mem_take hy)
    simpa using this.2
  linarith [hxw.1, hyw.2]

theorem rate_limiter_window_bound_witness :
    List.Sorted (· ≤ ·) [(0 : ℚ), 1, 2, 3, 4, 5, 6] ∧
    ((rlGrants [] [(0 : ℚ), 1, 2, 3, 4, 5, 6]).filter
      (fun t => decide ((6 : ℚ) - WINDOW < t ∧ t ≤ 6))).length ≤ MAX_CALLS :=
  ⟨by decide, rate_limiter_window_bound [0, 1, 2, 3, 4, 5, 6] (by decide) 6⟩

/-- C2.  The store upsert is insert-if-absent: upserting the same row list a
second time changes nothing (in particular the row count is unchanged), and
any key already present keeps its first-seen row. -/
theorem upsert_many_insert_if_absent (s : Store) (rows : List Row) :
    upsert_many (upsert_many s rows) rows = upsert_many s rows ∧
    (upsert_many (upsert_many s rows) rows).length = (upsert_many s rows).length ∧
    ∀ (tk : String) (d : ℤ), containsKey s tk d = true →
      lookupRow (upsert_many s rows) tk d = lookupRow s tk d := by
  have hidem : upsert_many (upsert_many s rows) rows = upsert_many s rows :=
    upsert_many_of_all_present (fun r hr => containsKey_of_mem_upsert_many rows hr)
  exact ⟨hidem, by rw [hidem],
    fun tk d h => lookupRow_upsert_many_of_containsKey rows h⟩

theorem upsert_many_insert_if_absent_witness :
    containsKey [⟨"AAA", 0, 1, 1, 1, 1, 1⟩] "AAA" 0 = true ∧
    lookupRow (upsert_many [⟨"AAA", 0, 1, 1, 1, 1, 1⟩]
        [⟨"AAA", 0, 2, 2, 2, 2, 2⟩, ⟨"BBB", 0, 3, 3, 3, 3, 3⟩]) "AAA" 0 =
      lookupRow [⟨"AAA", 0, 1, 1, 1, 1, 1⟩] "AAA" 0 :=
  ⟨by decide,
    (upsert_many_insert_if_absent [⟨"AAA", 0, 1, 1, 1, 1, 1⟩]
        [⟨"AAA", 0, 2, 2, 2, 2, 2⟩, ⟨"BBB", 0, 3, 3, 3, 3, 3⟩]).2.2 "AAA" 0 (by decide)⟩

/-- C4.  With a fetcher that always answers 200 with zero rows,
`backtrack_grouped_to_available(anchor, max_weekdays_back=3)` raises the
no-data `RuntimeError` after exactly 1 + 3 fetch attempts (the
weekend-adjusted anchor plus three more), all of them weekdays. -/
theorem grouped_lookback_exhaustion (resp : ℤ → PolyResponse)
    (hresp : ∀ d, resp d = ⟨200, none, []⟩) (anchor : ℤ) :
    (backtrack_grouped_to_available resp 3 anchor).2 = .error .runtimeError ∧
    (backtrack_grouped_to_available resp 3 anchor).1.length = 1 + 3 ∧
    (backtrack_grouped_to_available resp 3 anchor).1.head? = some (skipWeekend anchor) ∧
    ∀ a ∈ (backtrack_grouped_to_available resp 3 anchor).1, pyWeekday a < 5 := by
  obtain ⟨he, hl, hw⟩ := backtrackGo_all_empty resp hresp 4 anchor
  exact ⟨he, hl, backtrackGo_head resp 3 anchor, hw⟩

theorem grouped_lookback_exhaustion_witness :
    (∀ d : ℤ, (fun _ : ℤ => (⟨200, none, []⟩ : PolyResponse)) d = ⟨200, none, []⟩) ∧
    (backtrack_grouped_to_available (fun _ => ⟨200, none, []⟩) 3 19861).2 =
      .error .runtimeError ∧
    (backtrack_grouped_to_available (fun _ => ⟨200, none, []⟩) 3 19861).1.length = 1 + 3 :=
  ⟨fun _ => rfl,
    (grouped_lookback_exhaustion (fun _ => ⟨200, none, []⟩) (fun _ => rfl) 19861).1,
    (grouped_lookback_exhaustion (fun _ => ⟨200, none, []⟩) (fun _ => rfl) 19861).2.1⟩

/-- C9.  Single-ticker resolution is best-effort: when no row for `(tk, dt)`
is present and the fetcher answers 200 with zero rows for every candidate
date, `_store_single_ticker_close` returns `None` (no exception) after
`maxBack + 1` weekday attempts — a budget of its own, independent of the
grouped resolver's counter. -/
theorem single_close_best_effort (resp : ℤ → PolyResponse) (tk : String) (dt : ℤ)
    (maxBack : ℕ) (s : Store)
    (hresp : ∀ d, resp d = ⟨200, none, []⟩)
    (habs : containsKey s tk dt = false) :
    (store_single_ticker_close resp tk dt maxBack s).2 = .ok (s, none) ∧
    (store_single_ticker_close resp tk dt maxBack s).1.length = maxBack + 1 := by
  obtain ⟨hp2, hp1⟩ := singleProbe_all_empty resp hresp (maxBack + 1) dt
  unfold store_single_ticker_close
  rw [if_neg (by rw [habs]; exact Bool.false_ne_true), singleGo_eq_probe]
  exact ⟨by rw [hp2], by rw [hp1]⟩

theorem single_close_best_effort_witness :
    containsKey [] "VOO" 19859 = false ∧
    (store_single_ticker_close (fun _ => ⟨200, none, []⟩) "VOO" 19859 2 []).2 =
      .ok ([], none) ∧
    (store_single_ticker_close (fun _ => ⟨200, none, []⟩) "VOO" 19859 2 []).1.length =
      2 + 1 :=
  ⟨rfl,
    (single_close_best_effort (fun _ => ⟨200, none, []⟩) "VOO" 19859 2 []
      (fun _ => rfl) rfl).1,
    (single_close_best_effort (fun _ => ⟨200, none, []⟩) "VOO" 19859 2 []
      (fun _ => rfl) rfl).2⟩

/-- C10.  If a row keyed `(tk, dt)` already exists, `_store_single_ticker_close`
returns `dt` immediately: no fetch attempt, store untouched — the check runs
before any weekend adjustment, so this holds even for a weekend `dt`. -/
theorem single_close_skips_when_present (resp : ℤ → PolyResponse) (tk : String)
    (dt : ℤ) (maxBack : ℕ) (s : Store) (h : containsKey s tk dt = true) :
    store_single_ticker_close resp tk dt maxBack s = ([], .ok (s, some dt)) := by
  unfold store_single_ticker_close
  rw [if_pos h]

theorem single_close_skips_when_present_witness :
    containsKey [⟨"VOO", 2, 1, 1, 1, 1, 1⟩] "VOO" 2 = true ∧
    pyWeekday 2 = 5 ∧
    store_single_ticker_close (fun _ => ⟨200, none, []⟩) "VOO" 2 5
        [⟨"VOO", 2, 1, 1, 1, 1, 1⟩] =
      ([], .ok ([⟨"VOO", 2, 1, 1, 1, 1, 1⟩], some 2)) :=
  ⟨by decide, by decide,
    single_close_skips_when_present (fun _ => ⟨200, none, []⟩) "VOO" 2 5
      [⟨"VOO", 2, 1, 1, 1, 1, 1⟩] (by decide)⟩

/-- C3.  Coverage short-circuit: when the store already holds more than 90 %
of the universe for the anchor date, `sync_grouped_bars` issues no grouped
fetch, still invokes the single-ticker benchmark routine, returns the anchor
date, and only ever appends to the store; running the same sync again from
the resulting store again issues no grouped fetch and leaves the store
exactly as it was — no duplicated rows, no re-issued grouped calls. -/
theorem sync_coverage_short_circuit (gresp sresp : ℤ → PolyResponse)
    (symbols : Finset String) (s : Store) (as_of : ℤ) (maxBack : ℕ)
    (h200 : ∀ d, (sresp d).status = 200)
    (hcov : 9 * symbols.card < 10 * countForDate s (last_trading_thursday as_of)) :
    (sync_grouped_bars gresp sresp symbols s as_of maxBack).groupedAttempts = [] ∧
    (sync_grouped_bars gresp sresp symbols s as_of maxBack).singleInvoked = true ∧
    (sync_grouped_bars gresp sresp symbols s as_of maxBack).result =
      .ok (last_trading_thursday as_of) ∧
    (∃ ext, (sync_grouped_bars gresp sresp symbols s as_of maxBack).store = s ++ ext) ∧
    (sync_grouped_bars gresp sresp symbols
      (sync_grouped_bars gresp sresp symbols s as_of maxBack).store as_of
      maxBack).groupedAttempts = [] ∧
    (sync_grouped_bars gresp sresp symbols
        (sync_grouped_bars gresp sresp symbols s as_of maxBack).store as_of maxBack).store =
      (sync_grouped_bars gresp sresp symbols s as_of maxBack).store := by
  obtain ⟨s2, r, h1, ⟨ext, hext⟩, h3⟩ :=
    single_close_200 sresp "VOO" (last_trading_thursday as_of) maxBack s h200
  have hcovb : coverageOK (countForDate s (last_trading_thursday as_of)) symbols.card
      = true := by
    simp only [coverageOK, decide_eq_true_eq]
    exact hcov
  have hpair : store_single_ticker_close sresp "VOO" (last_trading_thursday as_of) maxBack s
      = ((store_single_ticker_close sresp "VOO" (last_trading_thursday as_of) maxBack s).1,
        .ok (s2, r)) := by
    rw [← h1]
  have hsync : sync_grouped_bars gresp sresp symbols s as_of maxBack =
      ⟨[], true,
        (store_single_ticker_close sresp "VOO" (last_trading_thursday as_of) maxBack s).1,
        some (last_trading_thursday as_of), s2, .ok (last_trading_thursday as_of)⟩ := by
    unfold sync_grouped_bars
    rw [if_pos hcovb, hpair]
  have hcov2 : 9 * symbols.card < 10 * countForDate s2 (last_trading_thursday as_of) := by
    rw [hext, countForDate_append]
    omega
  have hcovb2 : coverageOK (countForDate s2 (last_trading_thursday as_of)) symbols.card
      = true := by
    simp only [coverageOK, decide_eq_true_eq]
    exact hcov2
  have hpair2 : store_single_ticker_close sresp "VOO" (last_trading_thursday as_of) maxBack s2
      = ((store_single_ticker_close sresp "VOO" (last_trading_thursday as_of) maxBack s2).1,
        .ok (s2, r)) := by
    rw [← h3]
  have hsync2 : sync_grouped_bars gresp sresp symbols s2 as_of maxBack =
      ⟨[], true,
        (store_single_ticker_close sresp "VOO" (last_trading_thursday as_of) maxBack s2).1,
        some (last_trading_thursday as_of), s2, .ok (last_trading_thursday as_of)⟩ := by
    unfold sync_grouped_bars
    rw [if_pos hcovb2, hpair2]
  rw [hsync]
  exact ⟨rfl, rfl, rfl, ⟨ext, hext⟩, by rw [hsync2], by rw [hsync2]⟩

theorem sync_coverage_short_circuit_witness :
    (∀ d : ℤ, ((fun _ : ℤ => (⟨200, none, []⟩ : PolyResponse)) d).status = 200) ∧
    9 * ({"AAA"} : Finset String).card <
      10 * countForDate [⟨"AAA", 19859, 1, 1, 1, 1, 1⟩] (last_trading_thursday 19859) ∧
    (sync_grouped_bars (fun _ => ⟨200, none, []⟩) (fun _ => ⟨200, none, []⟩)
      ({"AAA"} : Finset String) [⟨"AAA", 19859, 1, 1, 1, 1, 1⟩] 19859 5).groupedAttempts
      = [] ∧
    (sync_grouped_bars (fun _ => ⟨200, none, []⟩) (fun _ => ⟨200, none, []⟩)
      ({"AAA"} : Finset String) [⟨"AAA", 19859, 1, 1, 1, 1, 1⟩] 19859 5).result =
      .ok (last_trading_thursday 19859) :=
  ⟨fun _ => rfl, by decide,
    (sync_coverage_short_circuit (fun _ => ⟨200, none, []⟩) (fun _ => ⟨200, none, []⟩)
      ({"AAA"} : Finset String) [⟨"AAA", 19859, 1, 1, 1, 1, 1⟩] 19859 5
      (fun _ => rfl) (by decide)).1,
    (sync_coverage_short_circuit (fun _ => ⟨200, none, []⟩) (fun _ => ⟨200, none, []⟩)
      ({"AAA"} : Finset String) [⟨"AAA", 19859, 1, 1, 1, 1, 1⟩] 19859 5
      (fun _ => rfl) (by decide)).2.2.1⟩

/-- C6.  Weekend stepping is free and the resolved date is never a weekend:
an anchor on a Saturday with zero lookback budget resolves to the preceding
Friday whenever the fetcher has data there (stepping over the weekend does
not consume budget), and every resolved date is a weekday. -/
theorem weekend_skip_is_free (resp : ℤ → PolyResponse) (anchor : ℤ)
    (hsat : pyWeekday anchor = 5)
    (hstat : (resp (anchor - 1)).status = 200)
    (hdata : (resp (anchor - 1)).results ≠ []) :
    (backtrack_grouped_to_available resp 0 anchor).2 =
      .ok (anchor - 1, (resp (anchor - 1)).results) ∧
    ∀ (resp' : ℤ → PolyResponse) (maxBack : ℕ) (anchor' d : ℤ) (bs : List Bar),
      (backtrack_grouped_to_available resp' maxBack anchor').2 = .ok (d, bs) →
      pyWeekday d < 5 := by
  have hskip : skipWeekend anchor = anchor - 1 := by rw [skipWeekend_eq, if_pos hsat]
  constructor
  · cases hres : (resp (anchor - 1)).results with
    | nil => exact absurd hres hdata
    | cons b bs =>
      have hstep := backtrackGo_succ_found resp 0 anchor
        (by rw [hskip]; exact hstat) (by rw [hskip]; exact hres)
      show (backtrackGo resp (0 + 1) anchor).2 = _
      rw [hstep, hskip]
  · intro resp' maxBack anchor' d bs h
    exact backtrackGo_ok_weekday resp' (maxBack + 1) anchor' d bs h

theorem weekend_skip_is_free_witness :
    pyWeekday 19861 = 5 ∧
    ((fun d : ℤ => if d = 19860 then (⟨200, none, [⟨"VOO", 1, 1, 1, 1, 1, 0⟩]⟩ : PolyResponse)
        else ⟨200, none, []⟩) (19861 - 1)).status = 200 ∧
    ((fun d : ℤ => if d = 19860 then (⟨200, none, [⟨"VOO", 1, 1, 1, 1, 1, 0⟩]⟩ : PolyResponse)
        else ⟨200, none, []⟩) (19861 - 1)).results ≠ [] ∧
    (backtrack_grouped_to_available
        (fun d : ℤ => if d = 19860 then (⟨200, none, [⟨"VOO", 1, 1, 1, 1, 1, 0⟩]⟩ : PolyResponse)
          else ⟨200, none, []⟩) 0 19861).2 =
      .ok (19861 - 1,
        ((fun d : ℤ => if d = 19860 then (⟨200, none, [⟨"VOO", 1, 1, 1, 1, 1, 0⟩]⟩ : PolyResponse)
          else ⟨200, none, []⟩) (19861 - 1)).results) :=
  ⟨by decide, by decide, by decide,
    (weekend_skip_is_free
      (fun d : ℤ => if d = 19860 then (⟨200, none, [⟨"VOO", 1, 1, 1, 1, 1, 0⟩]⟩ : PolyResponse)
        else ⟨200, none, []⟩) 19861 (by decide) (by decide) (by decide)).1⟩

/-- C7 counterexample: with the Saturday 2024-05-18 as-of, sync derives the
Thursday 2024-05-16 anchor, so its grouped attempts are Thursday then
Wednesday — Friday 2024-05-17 is never fetched, contradicting the claimed
"first two weekday attempts (Friday, Thursday)". -/
theorem sync_saturday_first_attempts_counterexample :
    pyWeekday 19861 = 5 ∧
    satOut.groupedAttempts = [19859, 19858] ∧
    satOut.groupedAttempts.take 2 ≠ [19860, 19859] ∧
    (19860 : ℤ) ∉ satOut.groupedAttempts :=
  ⟨by decide, by decide, by decide, by decide⟩

/-- C7 (amended).  For a Saturday as-of (2024-05-18) sync anchors on the
preceding Thursday; with Thursday empty and Wednesday carrying three bars
for AAA, BBB, CCC and universe `{AAA, BBB}`, sync fetches Thursday then
Wednesday, persists exactly the two universe rows dated Wednesday, persists
nothing for CCC, and returns Wednesday as the resolved date. -/
theorem sync_saturday_scenario_amended :
    satOut.result = .ok 19858 ∧
    satOut.groupedAttempts = [19859, 19858] ∧
    satOut.store.map (fun r => (r.ticker, r.date)) = [("AAA", 19858), ("BBB", 19858)] ∧
    (∀ r ∈ satOut.store, r.ticker ≠ "CCC") :=
  ⟨by decide, by decide, by decide, by decide⟩

/-- C8 counterexample: the bar fetched for Thursday 2024-05-16 carries a
timestamp on UTC day 2024-05-17 (= 19860), yet the stored row is dated
2024-05-16 (= 19859): the stored calendar date is not obtained by converting
the provider's millisecond timestamp. -/
theorem stored_date_ignores_timestamp_counterexample :
    (tsGResp 19859).results.map (fun b => msEpochToUtcDay b.t) = [19860] ∧
    tsOut.store.map (fun r => (r.ticker, r.date)) = [("AAA", 19859)] ∧
    (19859 : ℤ) ≠ 19860 :=
  ⟨by decide, by decide, by decide⟩

/-- C8 (amended).  Dates stored by the sync layer come from date resolution,
not from bar timestamps: every persisted row either predates the sync,
carries the resolved date (grouped rows), or is the benchmark row dated at
one of its fetch attempts; only the chart path derives calendar days from
the millisecond timestamps, as their UTC epoch day. -/
theorem stored_dates_are_resolution_dates (gresp sresp : ℤ → PolyResponse)
    (symbols : Finset String) (s : Store) (as_of : ℤ) (maxBack : ℕ) :
    (∀ r ∈ (sync_grouped_bars gresp sresp symbols s as_of maxBack).store,
      r ∈ s ∨
      (sync_grouped_bars gresp sresp symbols s as_of maxBack).resolvedDate = some r.date ∨
      (r.ticker = "VOO" ∧
        r.date ∈ (sync_grouped_bars gresp sresp symbols s as_of maxBack).singleAttempts)) ∧
    chartIndexDays = fun results => results.map (fun b => msEpochToUtcDay b.t) :=
  ⟨sync_store_row_provenance gresp sresp symbols s as_of maxBack, rfl⟩

theorem stored_dates_are_resolution_dates_witness :
    (⟨"AAA", 19859, 1, 1, 1, 1, 1⟩ : Row) ∈ tsOut.store ∧
    ((⟨"AAA", 19859, 1, 1, 1, 1, 1⟩ : Row) ∈ ([] : Store) ∨
      tsOut.resolvedDate = some (⟨"AAA", 19859, 1, 1, 1, 1, 1⟩ : Row).date ∨
      ((⟨"AAA", 19859, 1, 1, 1, 1, 1⟩ : Row).ticker = "VOO" ∧
        (⟨"AAA", 19859, 1, 1, 1, 1, 1⟩ : Row).date ∈ tsOut.singleAttempts)) :=
  ⟨by decide,
    (stored_dates_are_resolution_dates tsGResp emptySResp {"AAA"} [] 19859 5).1
      ⟨"AAA", 19859, 1, 1, 1, 1, 1⟩ (by decide)⟩

/-- C5 (code bug).  A grouped fetch that receives HTTP 429 raises `NameError`
(`prices.py` calls `time.sleep(65)` but imports only `sleep`), so the 429
surfaces to callers instead of being retried; in the chart path a malformed
`Retry-After` header raises `ValueError` instead of falling back to 15 s,
while an absent header does lead to a transparent retry. -/
theorem http429_surfaces_as_exception :
    fetch_grouped_for_date (fun _ => ⟨429, none, []⟩) 19859 = .error .nameError ∧
    rate_limited_get [⟨429, some "abc", []⟩, ⟨200, none, []⟩] = .error .valueError ∧
    rate_limited_get [⟨429, none, []⟩, ⟨200, none, []⟩] = .ok ⟨200, none, []⟩ :=
  ⟨rfl, by decide, by decide⟩

end Momentum
